import Mathlib

/-!
Verification development for the result-aggregation and reporting engine of
an OSV vulnerability scanner.  The Go sources are shallowly embedded:

* Go slices become `List`, Go maps become association lists or functions,
  Go's `float64` CVSS scores become `Rat` (the library only produces values
  in [0, 10] with one decimal), and fallible code (a Go panic) becomes
  `Option` / `Except`.
* External collaborators that the embedded functions call — the two
  `go-cvss` vector decoders, `fmt.Sprintf("%v", float64)`,
  `os.Getwd`/`filepath.Rel` path simplification, the OSV base URL and the
  terminal escape sequences, and the deps.dev gRPC endpoint — are
  parameters (`RenderEnv`, `getVersion`), since their code is not part of
  this repository.  A failed CVSS decode is modelled by `Option.getD 0`,
  matching the library's `Score()` which yields `0` on a decode error.
-/

/-- `models.Severity`: a scoring-scheme tag (`"CVSS_V2"` / `"CVSS_V3"`)
plus an opaque vector string. -/
structure Severity where
  type : String
  score : String
deriving DecidableEq, Repr

/-- `models.Package` as used by `FixedVersions` map keys:
ecosystem, name, purl. -/
structure Package where
  ecosystem : String
  name : String
  purl : String
deriving DecidableEq, Repr

/-- One event of an affected range; only the `fixed` marker is consumed by
`FixedVersions`. -/
structure Event where
  introduced : String
  fixed : String
deriving DecidableEq, Repr

/-- An affected range: an ordered list of events. -/
structure AffectedRange where
  events : List Event
deriving DecidableEq, Repr

/-- One `affected` entry of a vulnerability: a package key plus ranges. -/
structure Affected where
  package : Package
  ranges : List AffectedRange
deriving DecidableEq, Repr

/-- `models.Vulnerability`: id, severity entries, affected entries. -/
structure Vulnerability where
  id : String
  severity : List Severity
  affected : List Affected
deriving DecidableEq, Repr

/-- `models.AnalysisInfo`. -/
structure AnalysisInfo where
  called : Bool
deriving DecidableEq, Repr

/-- `models.GroupInfo`: the IDs of one alias group plus the
`ExperimentalAnalysis` map (embedded as an association list; the only
consumers are its length and an existential scan, both order-insensitive,
matching Go's unordered map iteration). -/
structure GroupInfo where
  ids : List String
  experimentalAnalysis : List (String × AnalysisInfo)
deriving DecidableEq, Repr

/-- `models.PackageInfo`. -/
structure PackageInfo where
  name : String
  version : String
  ecosystem : String
deriving DecidableEq, Repr

/-- `models.PackageVulns`: one package, its vulnerability records, its
groups, and its resolved licenses. -/
structure PackageVulns where
  package : PackageInfo
  vulnerabilities : List Vulnerability
  groups : List GroupInfo
  licenses : List String
deriving DecidableEq, Repr

/-- `models.SourceInfo`. -/
structure SourceInfo where
  path : String
  type : String
deriving DecidableEq, Repr

/-- `models.PackageSource`. -/
structure PackageSource where
  source : SourceInfo
  packages : List PackageVulns
deriving DecidableEq, Repr

/-- `models.VulnerabilityResults`. -/
structure VulnerabilityResults where
  results : List PackageSource
deriving DecidableEq, Repr

/-- `models.VulnerabilityFlattened`. -/
structure VulnerabilityFlattened where
  source : SourceInfo
  package : PackageInfo
  vulnerability : Vulnerability
  groupInfo : GroupInfo
deriving DecidableEq, Repr

/-- `GroupInfo.IsCalled`: true when the analysis map is empty, otherwise
true iff some entry has `Called = true`. -/
def IsCalled (groupInfo : GroupInfo) : Bool :=
  if groupInfo.experimentalAnalysis.length = 0 then
    true
  else
    groupInfo.experimentalAnalysis.any (fun analysis => analysis.2.called)

/-- `strings.Contains(s, ":")` (computed over the character list so that
concrete instances evaluate). -/
def containsColon (s : String) : Bool :=
  s.data.contains ':'

/-- `strings.Split(s, ":")[0]`: the substring before the first colon, or
the whole string when it has no colon (computed over the character
list). -/
def truncEco (s : String) : String :=
  ⟨s.data.takeWhile (fun c => c ≠ ':')⟩

/-- The Go-map append `output[k] = append(output[k], s)`, on the
function representation of `map[Package][]string` (a missing key reads as
the empty list, Go's nil slice). -/
def mapAppend (m : Package → List String) (k : Package) (s : String) :
    Package → List String :=
  fun k' => if k' = k then m k' ++ [s] else m k'

/-- The body of `FixedVersions`' event loop.  State: the output map and the
current (mutable in Go) `packageKey`.  On a non-empty `fixed` marker the
version is appended under the current key, the key's ecosystem is truncated
at the first colon when it contains one, and the version is appended again
under the (possibly truncated) key. -/
def fixedStep (st : (Package → List String) × Package) (e : Event) :
    (Package → List String) × Package :=
  if e.fixed ≠ "" then
    let m1 := mapAppend st.1 st.2 e.fixed
    let key2 :=
      if containsColon st.2.ecosystem then
        { st.2 with ecosystem := truncEco st.2.ecosystem }
      else st.2
    (mapAppend m1 key2 e.fixed, key2)
  else
    st

/-- `Vulnerability.FixedVersions`: per affected entry the package key (purl
cleared) threads, together with the output map, through every range and
event. -/
def FixedVersions (v : Vulnerability) : Package → List String :=
  v.affected.foldl
    (fun output a =>
      (a.ranges.foldl (fun st r => r.events.foldl fixedStep st)
        (output, { a.package with purl := "" })).1)
    (fun _ => [])

/-- A vulnerability with a single affected entry: one package key and one
range whose events are all "fixed" markers.  This is the input shape the
`FixedVersions` claims quantify over. -/
def oneAffectedVuln (eco name purl : String) (fs : List String) : Vulnerability :=
  { id := ""
    severity := []
    affected := [{ package := ⟨eco, name, purl⟩
                   ranges := [{ events := fs.map (fun f => ⟨"", f⟩) }] }] }

/-- The external collaborators of the table renderer, passed as data: the
two `go-cvss` base-metric decoders (`none` models a decode error, whose
zero `Score()` the caller consumes), `fmt.Sprintf` on a float score,
`filepath.Rel`-based path simplification (including its fall-back to the
original path), `osv.BaseVulnerabilityURL`, and the terminal bold/reset
escape sequences. -/
structure RenderEnv where
  decodeV2 : String → Option Rat
  decodeV3 : String → Option Rat
  formatFloat : Rat → String
  simplifyPath : String → String
  baseURL : String
  boldSeq : String
  resetSeq : String

/-- `models.SeverityCVSSV2`. -/
def SeverityCVSSV2 : String := "CVSS_V2"

/-- `models.SeverityCVSSV3`. -/
def SeverityCVSSV3 : String := "CVSS_V3"

/-- One iteration of `MaxSeverity`'s severity loop: the `switch` on the
scheme kind decodes the vector and takes `math.Max`; an unrecognized kind
leaves the accumulator unchanged. -/
def severityStep (env : RenderEnv) (maxSeverity : Rat) (severity : Severity) : Rat :=
  if severity.type = SeverityCVSSV2 then
    max maxSeverity ((env.decodeV2 severity.score).getD 0)
  else if severity.type = SeverityCVSSV3 then
    max maxSeverity ((env.decodeV3 severity.score).getD 0)
  else
    maxSeverity

/-- `MaxSeverity`'s inner scan: `severities` is overwritten by every
record whose ID matches, so the last match (or the nil slice) survives. -/
def severitiesOf (vulnID : String) (vulns : List Vulnerability) : List Severity :=
  vulns.foldl (fun severities vuln =>
    if vuln.id = vulnID then vuln.severity else severities) []

/-- The numeric accumulator of `MaxSeverity` over all IDs of a group. -/
def maxSeverityScore (env : RenderEnv) (group : GroupInfo) (pkg : PackageVulns) : Rat :=
  group.ids.foldl (fun m vulnID =>
    (severitiesOf vulnID pkg.vulnerabilities).foldl (severityStep env) m) 0

/-- `output.MaxSeverity`: the accumulated maximum, rendered as `""` when
it is zero and with `fmt.Sprintf` otherwise. -/
def MaxSeverity (env : RenderEnv) (group : GroupInfo) (pkg : PackageVulns) : String :=
  if maxSeverityScore env group pkg = 0 then ""
  else env.formatFloat (maxSeverityScore env group pkg)

/-- The score one severity entry contributes (spec view of
`severityStep`): the decoded value for a recognized scheme, zero
otherwise. -/
def severityScore (env : RenderEnv) (severity : Severity) : Rat :=
  if severity.type = SeverityCVSSV2 then (env.decodeV2 severity.score).getD 0
  else if severity.type = SeverityCVSSV3 then (env.decodeV3 severity.score).getD 0
  else 0

/-- Modelled from the claim's words for comparison with `severitiesOf`:
the severity entries of the last record whose ID matches, or none when no
record matches. -/
def lastMatchSeverities (vulnID : String) (vulns : List Vulnerability) : List Severity :=
  match vulns.reverse.find? (fun vuln => vuln.id = vulnID) with
  | some vuln => vuln.severity
  | none => []

/-- `slices.IndexFunc` + indexing in `Flatten`, i.e. the first group whose
IDs contain the vulnerability's ID. -/
def findGroup (groups : List GroupInfo) (vulnID : String) : Option GroupInfo :=
  groups.find? (fun g => g.ids.contains vulnID)

/-- `Flatten`'s vulnerability loop for one package; the Go panic on a
missing group (indexing with -1) is modelled as `none`. -/
def flattenVulns (source : SourceInfo) (pkgInfo : PackageInfo)
    (groups : List GroupInfo) : List Vulnerability → Option (List VulnerabilityFlattened)
  | [] => some []
  | v :: rest =>
    match findGroup groups v.id with
    | none => none
    | some g =>
      (flattenVulns source pkgInfo groups rest).map
        (fun tail => ⟨source, pkgInfo, v, g⟩ :: tail)

/-- `Flatten`'s package loop for one source. -/
def flattenPkgs (source : SourceInfo) : List PackageVulns → Option (List VulnerabilityFlattened)
  | [] => some []
  | pkg :: rest => do
    let head ← flattenVulns source pkg.package pkg.groups pkg.vulnerabilities
    let tail ← flattenPkgs source rest
    pure (head ++ tail)

/-- `Flatten`'s source loop. -/
def flattenSources : List PackageSource → Option (List VulnerabilityFlattened)
  | [] => some []
  | res :: rest => do
    let head ← flattenPkgs res.source res.packages
    let tail ← flattenSources rest
    pure (head ++ tail)

/-- `VulnerabilityResults.Flatten`. -/
def Flatten (r : VulnerabilityResults) : Option (List VulnerabilityFlattened) :=
  flattenSources r.results

/-- Well-formedness precondition of the claims: every vulnerability ID of
every package is contained in some group of that package. -/
def WellFormed (r : VulnerabilityResults) : Prop :=
  ∀ res ∈ r.results, ∀ pkg ∈ res.packages, ∀ v ∈ pkg.vulnerabilities,
    ∃ g ∈ pkg.groups, g.ids.contains v.id

/-- The flattened rows as the claim describes them: one row per
(source, package, vulnerability) triple carrying the first matching
group, in source, package, vulnerability order. -/
def flattenSpec (r : VulnerabilityResults) : List VulnerabilityFlattened :=
  r.results.flatMap (fun res =>
    res.packages.flatMap (fun pkg =>
      pkg.vulnerabilities.filterMap (fun v =>
        (findGroup pkg.groups v.id).map
          (fun g => ⟨res.source, pkg.package, v, g⟩))))

/-- Total number of vulnerability records across all packages of all
sources. -/
def totalVulns (r : VulnerabilityResults) : Nat :=
  ((r.results.flatMap (fun res => res.packages)).map
    (fun pkg => pkg.vulnerabilities.length)).sum

/-- An entry appended to the output table: the header, a data row with its
`AutoMerge` flag, or a separator line. -/
inductive TableEntry where
  | header (cells : List String)
  | row (cells : List String) (autoMerge : Bool)
  | separator
deriving DecidableEq, Repr

/-- The vulnerability table header appended by `tableBuilder`. -/
def tableHeader : List String :=
  ["OSV URL", "CVSS", "Ecosystem", "Package", "Version", "Source"]

/-- The row `tableBuilderInner` emits for one group: OSV links joined by
newlines (bold-wrapped under styling), the group's max severity,
ecosystem/package/version — with the `"GIT"` special case repeating the
version and enabling cell merging — and the simplified source path. -/
def buildGroupRow (env : RenderEnv) (addStyling : Bool) (sourcePath : String)
    (pkg : PackageVulns) (group : GroupInfo) : List String × Bool :=
  let links := group.ids.map (fun vuln =>
    if addStyling then env.baseURL ++ env.boldSeq ++ vuln ++ env.resetSeq
    else env.baseURL ++ vuln)
  let row0 := [String.intercalate "\n" links, MaxSeverity env group pkg]
  if pkg.package.ecosystem = "GIT" then
    (row0 ++ ["GIT", pkg.package.version, pkg.package.version] ++ [sourcePath], true)
  else
    (row0 ++ [pkg.package.ecosystem, pkg.package.name, pkg.package.version] ++ [sourcePath], false)

/-- `output.tableBuilderInner`: accumulates a row for every group of every
package of every source whose `IsCalled` equals `calledVulns`, skipping
the others (`continue`). -/
def tableBuilderInner (env : RenderEnv) (vulnResult : VulnerabilityResults)
    (addStyling calledVulns : Bool) : List (List String × Bool) :=
  vulnResult.results.foldl
    (fun allOutputRows sourceRes =>
      sourceRes.packages.foldl
        (fun allOutputRows pkg =>
          pkg.groups.foldl
            (fun allOutputRows group =>
              if IsCalled group ≠ calledVulns then allOutputRows
              else allOutputRows ++
                [buildGroupRow env addStyling
                  (env.simplifyPath sourceRes.source.path) pkg group])
            allOutputRows)
        allOutputRows)
    []

/-- `output.tableBuilder`: header, the called rows, and — only when the
uncalled pass produced rows — a separator, the labelled divider row, a
separator, and the uncalled rows. -/
def tableBuilder (env : RenderEnv) (vulnResult : VulnerabilityResults)
    (addStyling : Bool) : List TableEntry :=
  let rows := tableBuilderInner env vulnResult addStyling true
  let t1 := TableEntry.header tableHeader ::
    rows.map (fun elem => TableEntry.row elem.1 elem.2)
  let uncalledRows := tableBuilderInner env vulnResult addStyling false
  if uncalledRows.length = 0 then t1
  else
    t1 ++ [TableEntry.separator,
           TableEntry.row ["Uncalled vulnerabilities"] false,
           TableEntry.separator] ++
      uncalledRows.map (fun elem => TableEntry.row elem.1 elem.2)

/-- The rows of one pass as the claim describes them: the groups whose
`IsCalled` equals `calledVulns`, kept in source, package, group order. -/
def groupRows (env : RenderEnv) (r : VulnerabilityResults)
    (addStyling calledVulns : Bool) : List (List String × Bool) :=
  r.results.flatMap (fun res =>
    res.packages.flatMap (fun pkg =>
      (pkg.groups.filter (fun g => IsCalled g = calledVulns)).map
        (buildGroupRow env addStyling (env.simplifyPath res.source.path) pkg)))

/-- The license-count accumulation `counts[l] += 1` on an association
list. -/
def bumpCount (counts : List (String × Nat)) (l : String) : List (String × Nat) :=
  match counts with
  | [] => [(l, 1)]
  | (k, n) :: rest => if k = l then (k, n + 1) :: rest else (k, n) :: bumpCount rest l

/-- The license counts of `licenseSummaryTableBuilder`: one increment per
license of every package of every source. -/
def buildCounts (vulnResult : VulnerabilityResults) : List (String × Nat) :=
  vulnResult.results.foldl
    (fun counts pkgSource =>
      pkgSource.packages.foldl
        (fun counts pkg => pkg.licenses.foldl bumpCount counts)
        counts)
    []

/-- Go map lookup `counts[l]` (zero for a missing key). -/
def countOf (counts : List (String × Nat)) (l : String) : Nat :=
  ((counts.find? (fun p => p.1 = l)).map (fun p => p.2)).getD 0

/-- Lexicographic comparison of character lists by scalar value. -/
def strLtb : List Char → List Char → Bool
  | [], [] => false
  | [], _ :: _ => true
  | _ :: _, [] => false
  | a :: as, b :: bs =>
    if a.toNat < b.toNat then true
    else if b.toNat < a.toNat then false
    else strLtb as bs

/-- Go's `licenses[i] < licenses[j]`: byte-wise string comparison, which
on UTF-8 data coincides with code-point-wise lexicographic order
(computed over the character list so that concrete instances
evaluate). -/
def strLt (a b : String) : Bool :=
  strLtb a.data b.data

/-- The `sort.Slice` comparator of the license summary: `"UNKNOWN"` sorts
after everything, ties on count break by lexical order, otherwise higher
counts sort first. -/
def licenseLess (counts : List (String × Nat)) (li lj : String) : Bool :=
  if li = "UNKNOWN" then false
  else if lj = "UNKNOWN" then true
  else if countOf counts li = countOf counts lj then strLt li lj
  else decide (countOf counts lj < countOf counts li)

/-- The non-strict order induced by the comparator: `a` may precede `b`
exactly when the comparator does not strictly order `b` before `a`. -/
def licenseLE (counts : List (String × Nat)) (a b : String) : Prop :=
  licenseLess counts b a = false

instance (counts : List (String × Nat)) : DecidableRel (licenseLE counts) :=
  fun a b => inferInstanceAs (Decidable (licenseLess counts b a = false))

/-- The sorted key list of the license summary.  Go's unstable
`sort.Slice` is modelled by insertion sort: the comparator is a strict
total order on the (distinct) map keys, so every sort that satisfies the
comparator produces this same list. -/
def sortedLicenses (counts : List (String × Nat)) : List String :=
  (counts.map (fun p => p.1)).insertionSort (licenseLE counts)

/-- `output.licenseSummaryTableBuilder`: nothing when no package carried a
license, otherwise a header plus one row per license in sorted order. -/
def licenseSummaryTableBuilder (vulnResult : VulnerabilityResults) : List TableEntry :=
  let counts := buildCounts vulnResult
  if counts.length = 0 then []
  else
    TableEntry.header ["License", "No. of package versions"] ::
      (sortedLicenses counts).map (fun license =>
        TableEntry.row [license, toString (countOf counts license)] false)

/-- The outcome of one `GetVersion` gRPC call, as distinguished by
`MakeVersionRequests`: success with a license list, an error with
not-found status, or any other error. -/
inductive GetVersionResult where
  | ok (licenses : List String)
  | notFound
  | otherError (msg : String)
deriving DecidableEq, Repr

/-- The batch error surfaced by `errgroup.Wait`. -/
inductive DepsDevError where
  | notFound
  | other (msg : String)
deriving DecidableEq, Repr

/-- One worker of `MakeVersionRequests`: a `nil` query is skipped leaving
its slot empty; not-found stores `["UNKNOWN"]` in the slot and reports the
error; any other error leaves the slot empty and reports; success
normalizes an empty license list to `["UNKNOWN"]`. -/
def workerSlot {α : Type} (getVersion : α → GetVersionResult) (query : Option α) :
    List String × Option DepsDevError :=
  match query with
  | none => ([], none)
  | some q =>
    match getVersion q with
    | .notFound => (["UNKNOWN"], some .notFound)
    | .otherError msg => ([], some (.other msg))
    | .ok ls => (if ls.length = 0 then ["UNKNOWN"] else ls, none)

/-- The pre-allocated `licenses` array after all workers finished: slot
`i` belongs to query `i` regardless of completion order. -/
def versionSlots {α : Type} (getVersion : α → GetVersionResult)
    (queries : List (Option α)) : List (List String) :=
  queries.map (fun q => (workerSlot getVersion q).1)

/-- The error `errgroup.Wait` returns: the first error some worker
reported (with at most one failing worker this is exact; with several,
Go's race picks one and we take the lowest index). -/
def firstWorkerError {α : Type} (getVersion : α → GetVersionResult)
    (queries : List (Option α)) : Option DepsDevError :=
  queries.findSome? (fun q => (workerSlot getVersion q).2)

/-- `depsdev.MakeVersionRequests` after the connection is set up: on any
worker error the call returns `nil, err`, discarding the filled slots;
otherwise it returns the slot array. -/
def MakeVersionRequests {α : Type} (getVersion : α → GetVersionResult)
    (queries : List (Option α)) : Except DepsDevError (List (List String)) :=
  match firstWorkerError getVersion queries with
  | some e => .error e
  | none => .ok (versionSlots getVersion queries)

/-- A concrete render environment for witnesses and counterexamples: the
v3 decoder accepts the vector `"Z0"` with base score 0 (as the real
decoder does for an all-None impact vector) and `"V5"` with score 5; the
formatter is total and never empty. -/
def envTest : RenderEnv :=
  { decodeV2 := fun _ => none
    decodeV3 := fun s => if s = "Z0" then some 0 else if s = "V5" then some 5 else none
    formatFloat := fun _ => "5"
    simplifyPath := fun p => p
    baseURL := "https://osv.dev/"
    boldSeq := ""
    resetSeq := "" }

/-- A concrete deps.dev endpoint: query `"q1"` resolves with `["MIT"]`,
every other query reports not-found. -/
def gvTest : String → GetVersionResult :=
  fun q => if q = "q1" then .ok ["MIT"] else .notFound

/-- A one-ID group with no analysis data. -/
def groupOne : GroupInfo := ⟨["OSV-1"], []⟩

/-- A package whose single vulnerability carries one CVSS v3 vector that
`envTest` decodes to score 5. -/
def pkgV5 : PackageVulns :=
  ⟨⟨"n", "1.0", "npm"⟩, [⟨"OSV-1", [⟨"CVSS_V3", "V5"⟩], []⟩], [groupOne], []⟩

/-- A package whose single vulnerability carries one CVSS v3 vector that
`envTest` decodes successfully to score 0. -/
def pkgZ0 : PackageVulns :=
  ⟨⟨"n", "1.0", "npm"⟩, [⟨"OSV-1", [⟨"CVSS_V3", "Z0"⟩], []⟩], [groupOne], []⟩

/-- A well-formed result model: one source, one package, two
vulnerabilities, each in its own group. -/
def rGood : VulnerabilityResults :=
  ⟨[⟨⟨"dir/lock", "lockfile"⟩,
     [⟨⟨"pkgA", "1.0", "npm"⟩,
       [⟨"OSV-1", [], []⟩, ⟨"OSV-2", [], []⟩],
       [⟨["OSV-1"], []⟩, ⟨["OSV-2"], []⟩],
       []⟩]⟩]⟩

/-- An ill-formed result model: the package's only vulnerability belongs
to no group. -/
def rBad : VulnerabilityResults :=
  ⟨[⟨⟨"dir/lock", "lockfile"⟩,
     [⟨⟨"pkgA", "1.0", "npm"⟩, [⟨"OSV-1", [], []⟩], [], []⟩]⟩]⟩

/-- A model whose license counts are MIT 5, UNKNOWN 5, Apache-2.0 3. -/
def rLicense : VulnerabilityResults :=
  ⟨[⟨⟨"dir/lock", "lockfile"⟩,
     [⟨⟨"pkgA", "1.0", "npm"⟩, [], [],
       ["MIT", "MIT", "MIT", "MIT", "MIT",
        "UNKNOWN", "UNKNOWN", "UNKNOWN", "UNKNOWN", "UNKNOWN",
        "Apache-2.0", "Apache-2.0", "Apache-2.0"]⟩]⟩]⟩

/-- Folding fixed-events over a state whose current key has a colon-free
ecosystem never changes the key and appends each version twice under that
key, leaving every other key untouched. -/
theorem fixedFold_noColon (fs : List String) :
    ∀ (m : Package → List String) (k : Package),
      containsColon k.ecosystem = false → (∀ f ∈ fs, f ≠ "") →
      ((fs.map (fun f => Event.mk "" f)).foldl fixedStep (m, k)).2 = k ∧
      ∀ k', ((fs.map (fun f => Event.mk "" f)).foldl fixedStep (m, k)).1 k' =
        if k' = k then m k' ++ fs.flatMap (fun f => [f, f]) else m k' := by
  induction fs with
  | nil =>
    intro m k _ _
    refine ⟨rfl, fun k' => ?_⟩
    by_cases h : k' = k <;> simp [h]
  | cons f rest ih =>
    intro m k hk hf
    have hf0 : f ≠ "" := hf f (by simp)
    have step : fixedStep (m, k) (Event.mk "" f) =
        (mapAppend (mapAppend m k f) k f, k) := by
      simp [fixedStep, hf0, hk]
    rw [List.map_cons, List.foldl_cons, step]
    obtain ⟨h2, h1⟩ := ih (mapAppend (mapAppend m k f) k f) k hk
      (fun g hg => hf g (by simp [hg]))
    refine ⟨h2, fun k' => ?_⟩
    rw [h1 k']
    by_cases hkk : k' = k
    · simp [hkk, mapAppend]
    · simp [hkk, mapAppend]

/-- On a single affected entry whose ecosystem contains a colon and whose
events are all non-empty fixed markers: the first event puts its version
once under the fully-qualified key and once under the truncated key, and
every later event puts its version twice under the truncated key. -/
theorem fixedVersions_colon (eco name purl f1 : String) (rest : List String)
    (h1 : containsColon eco = true) (h2 : containsColon (truncEco eco) = false)
    (hf1 : f1 ≠ "") (hrest : ∀ f ∈ rest, f ≠ "") :
    FixedVersions (oneAffectedVuln eco name purl (f1 :: rest)) ⟨eco, name, ""⟩ = [f1] ∧
    FixedVersions (oneAffectedVuln eco name purl (f1 :: rest)) ⟨truncEco eco, name, ""⟩ =
      f1 :: rest.flatMap (fun f => [f, f]) := by
  have hne : eco ≠ truncEco eco := by
    intro h
    rw [← h, h1] at h2
    exact Bool.noConfusion h2
  have hstart : FixedVersions (oneAffectedVuln eco name purl (f1 :: rest)) =
      (((f1 :: rest).map (fun f => Event.mk "" f)).foldl fixedStep
        ((fun _ => []), ⟨eco, name, ""⟩)).1 := by
    simp [FixedVersions, oneAffectedVuln]
  have step1 : fixedStep ((fun _ => ([] : List String)), (⟨eco, name, ""⟩ : Package))
      (Event.mk "" f1) =
      (mapAppend (mapAppend (fun _ => []) ⟨eco, name, ""⟩ f1)
        ⟨truncEco eco, name, ""⟩ f1, ⟨truncEco eco, name, ""⟩) := by
    simp [fixedStep, hf1, h1]
  rw [hstart, List.map_cons, List.foldl_cons, step1]
  obtain ⟨hkey, hmap⟩ := fixedFold_noColon rest
    (mapAppend (mapAppend (fun _ => []) ⟨eco, name, ""⟩ f1) ⟨truncEco eco, name, ""⟩ f1)
    ⟨truncEco eco, name, ""⟩ h2 hrest
  have hqn : (⟨eco, name, ""⟩ : Package) ≠ ⟨truncEco eco, name, ""⟩ := by
    intro h
    exact hne (by injection h)
  constructor
  · rw [hmap ⟨eco, name, ""⟩]
    simp [hqn, mapAppend, Ne.symm hqn]
  · rw [hmap ⟨truncEco eco, name, ""⟩]
    simp [mapAppend, Ne.symm hqn]

/-- On a single affected entry whose ecosystem has no colon, every
non-empty fixed marker is appended twice under the one (purl-stripped)
key. -/
theorem fixedVersions_noColon (eco name purl : String) (fs : List String)
    (h : containsColon eco = false) (hfs : ∀ f ∈ fs, f ≠ "") :
    FixedVersions (oneAffectedVuln eco name purl fs) ⟨eco, name, ""⟩ =
      fs.flatMap (fun f => [f, f]) := by
  have hstart : FixedVersions (oneAffectedVuln eco name purl fs) =
      ((fs.map (fun f => Event.mk "" f)).foldl fixedStep
        ((fun _ => []), ⟨eco, name, ""⟩)).1 := by
    simp [FixedVersions, oneAffectedVuln]
  obtain ⟨hkey, hmap⟩ := fixedFold_noColon fs (fun _ => []) ⟨eco, name, ""⟩ h hfs
  rw [hstart, hmap ⟨eco, name, ""⟩]
  simp

/-- Claim C6: `IsCalled` is true exactly when the analysis map is empty or
some entry is called; it is false exactly when the map is non-empty and
every entry has `Called = false`. -/
theorem isCalled_characterization :
    (∀ g : GroupInfo,
      IsCalled g = true ↔
        (g.experimentalAnalysis = [] ∨
          ∃ p ∈ g.experimentalAnalysis, p.2.called = true)) ∧
    (∀ g : GroupInfo,
      IsCalled g = false ↔
        (g.experimentalAnalysis ≠ [] ∧
          ∀ p ∈ g.experimentalAnalysis, p.2.called = false)) := by
  constructor
  · intro g
    unfold IsCalled
    by_cases h : g.experimentalAnalysis.length = 0
    · simp [h, List.length_eq_zero.mp h]
    · have hne : g.experimentalAnalysis ≠ [] := by
        intro hnil; exact h (by simp [hnil])
      simp [h, hne, List.any_eq_true]
  · intro g
    unfold IsCalled
    by_cases h : g.experimentalAnalysis.length = 0
    · simp [h, List.length_eq_zero.mp h]
    · have hne : g.experimentalAnalysis ≠ [] := by
        intro hnil; exact h (by simp [hnil])
      simp [h, hne, List.any_eq_false]

/-- Claim C9: on a colon-qualified ecosystem the key truncation persists
for the rest of the affected entry, so only the first fix event's version
lands under the fully-qualified key while every later fix event lands
twice under the truncated key; on a colon-free ecosystem every fix version
lands twice under the single key. -/
theorem fixedVersions_truncation_mutates_key :
    (∀ (eco name purl f1 : String) (rest : List String),
      containsColon eco = true → containsColon (truncEco eco) = false →
      f1 ≠ "" → (∀ f ∈ rest, f ≠ "") →
      FixedVersions (oneAffectedVuln eco name purl (f1 :: rest)) ⟨eco, name, ""⟩ = [f1] ∧
      FixedVersions (oneAffectedVuln eco name purl (f1 :: rest)) ⟨truncEco eco, name, ""⟩ =
        f1 :: rest.flatMap (fun f => [f, f])) ∧
    (∀ (eco name purl : String) (fs : List String),
      containsColon eco = false → (∀ f ∈ fs, f ≠ "") →
      FixedVersions (oneAffectedVuln eco name purl fs) ⟨eco, name, ""⟩ =
        fs.flatMap (fun f => [f, f])) :=
  ⟨fun eco name purl f1 rest h1 h2 hf1 hrest =>
      fixedVersions_colon eco name purl f1 rest h1 h2 hf1 hrest,
   fun eco name purl fs h hfs => fixedVersions_noColon eco name purl fs h hfs⟩

/-- Witness for C9: ecosystem `"Go:gomod"` with fix events
`["1.0.0", "2.0.0"]` yields `"Go:gomod" ↦ ["1.0.0"]` and
`"Go" ↦ ["1.0.0", "2.0.0", "2.0.0"]`; ecosystem `"npm"` with the same
events yields `["1.0.0", "1.0.0", "2.0.0", "2.0.0"]`. -/
theorem fixedVersions_truncation_mutates_key_witness :
    (FixedVersions (oneAffectedVuln "Go:gomod" "p" "u" ["1.0.0", "2.0.0"])
        ⟨"Go:gomod", "p", ""⟩ = ["1.0.0"] ∧
      FixedVersions (oneAffectedVuln "Go:gomod" "p" "u" ["1.0.0", "2.0.0"])
        ⟨truncEco "Go:gomod", "p", ""⟩ = ["1.0.0", "2.0.0", "2.0.0"]) ∧
    FixedVersions (oneAffectedVuln "npm" "p" "u" ["1.0.0", "2.0.0"])
        ⟨"npm", "p", ""⟩ = ["1.0.0", "1.0.0", "2.0.0", "2.0.0"] :=
  ⟨fixedVersions_truncation_mutates_key.1 "Go:gomod" "p" "u" "1.0.0" ["2.0.0"]
      (by decide) (by decide) (by decide) (by decide),
   fixedVersions_truncation_mutates_key.2 "npm" "p" "u" ["1.0.0", "2.0.0"]
      (by decide) (by decide)⟩

/-- Counterexample for C3: with one affected entry for ecosystem
`"Go:gomod"` and a single fix event `"1.2.0"`, each of the two keys maps to
`["1.2.0"]` containing the version once, not twice as claimed. -/
theorem fixedVersions_c3_counterexample :
    FixedVersions (oneAffectedVuln "Go:gomod" "pkgA" "pkg:golang/pkgA" ["1.2.0"])
        ⟨"Go:gomod", "pkgA", ""⟩ = ["1.2.0"] ∧
    FixedVersions (oneAffectedVuln "Go:gomod" "pkgA" "pkg:golang/pkgA" ["1.2.0"])
        ⟨"Go", "pkgA", ""⟩ = ["1.2.0"] ∧
    (FixedVersions (oneAffectedVuln "Go:gomod" "pkgA" "pkg:golang/pkgA" ["1.2.0"])
        ⟨"Go:gomod", "pkgA", ""⟩).count "1.2.0" ≠ 2 ∧
    (FixedVersions (oneAffectedVuln "Go:gomod" "pkgA" "pkg:golang/pkgA" ["1.2.0"])
        ⟨"Go", "pkgA", ""⟩).count "1.2.0" ≠ 2 := by
  decide

/-- Claim C3 (amended): a vulnerability with one affected entry for
ecosystem `"Go:gomod"` and exactly one fix event `ver` yields a map with
both key `"Go:gomod"` and key `"Go"` (purl stripped), each mapping to
`[ver]` — the version appears once under each key. -/
theorem fixedVersions_go_gomod_single_fix (name purl ver : String) (hv : ver ≠ "") :
    FixedVersions (oneAffectedVuln "Go:gomod" name purl [ver])
        ⟨"Go:gomod", name, ""⟩ = [ver] ∧
    FixedVersions (oneAffectedVuln "Go:gomod" name purl [ver])
        ⟨"Go", name, ""⟩ = [ver] := by
  have h := fixedVersions_colon "Go:gomod" name purl ver [] (by decide) (by decide)
    hv (by simp)
  have htr : truncEco "Go:gomod" = "Go" := by decide
  rw [htr] at h
  simpa using h

/-- Witness for the amended C3 at the claim's own input. -/
theorem fixedVersions_go_gomod_single_fix_witness :
    FixedVersions (oneAffectedVuln "Go:gomod" "pkgA" "pkg:golang/pkgA" ["1.2.0"])
        ⟨"Go:gomod", "pkgA", ""⟩ = ["1.2.0"] ∧
    FixedVersions (oneAffectedVuln "Go:gomod" "pkgA" "pkg:golang/pkgA" ["1.2.0"])
        ⟨"Go", "pkgA", ""⟩ = ["1.2.0"] :=
  fixedVersions_go_gomod_single_fix "pkgA" "pkg:golang/pkgA" "1.2.0" (by decide)

/-- The overwrite-scan of `MaxSeverity` keeps the severities of the last
matching record (or the start value when nothing matches). -/
theorem severitiesOf_foldl (vulnID : String) :
    ∀ (vulns : List Vulnerability) (acc : List Severity),
      vulns.foldl (fun severities vuln =>
        if vuln.id = vulnID then vuln.severity else severities) acc =
      match vulns.reverse.find? (fun vuln => vuln.id = vulnID) with
      | some vuln => vuln.severity
      | none => acc := by
  intro vulns
  induction vulns with
  | nil => intro acc; rfl
  | cons v rest ih =>
    intro acc
    rw [List.foldl_cons, ih, List.reverse_cons, List.find?_append]
    cases hfind : rest.reverse.find? (fun vuln => vuln.id = vulnID) with
    | some w => simp
    | none =>
      by_cases h : v.id = vulnID
      · simp [List.find?, h]
      · simp [List.find?, h]

/-- Claim C10: the severity collection of `MaxSeverity` is exactly the
last matching record's severities — duplicate IDs overwrite, an unmatched
group ID contributes nothing — and the whole score computation factors
through that last-match view. -/
theorem maxSeverity_uses_last_match :
    (∀ (vulnID : String) (vulns : List Vulnerability),
      severitiesOf vulnID vulns = lastMatchSeverities vulnID vulns) ∧
    (∀ (env : RenderEnv) (group : GroupInfo) (pkg : PackageVulns),
      maxSeverityScore env group pkg =
        group.ids.foldl (fun m vulnID =>
          (lastMatchSeverities vulnID pkg.vulnerabilities).foldl (severityStep env) m) 0) := by
  have h1 : ∀ (vulnID : String) (vulns : List Vulnerability),
      severitiesOf vulnID vulns = lastMatchSeverities vulnID vulns := by
    intro vulnID vulns
    unfold severitiesOf lastMatchSeverities
    exact severitiesOf_foldl vulnID vulns []
  refine ⟨h1, fun env group pkg => ?_⟩
  unfold maxSeverityScore
  congr 1
  funext m vulnID
  rw [h1]

/-- The initial accumulator never exceeds a max-fold. -/
theorem foldl_max_init_le {α : Type} (f : α → Rat) :
    ∀ (l : List α) (m : Rat), m ≤ l.foldl (fun a x => max a (f x)) m := by
  intro l
  induction l with
  | nil => intro m; simp
  | cons x rest ih => intro m; exact le_trans (le_max_left m (f x)) (ih _)

/-- Every element's value is below the max-fold. -/
theorem foldl_max_mem_le {α : Type} (f : α → Rat) :
    ∀ (l : List α) (m : Rat) (x : α), x ∈ l →
      f x ≤ l.foldl (fun a y => max a (f y)) m := by
  intro l
  induction l with
  | nil => intro m x hx; cases hx
  | cons y rest ih =>
    intro m x hx
    rcases List.mem_cons.mp hx with h | h
    · subst h
      exact le_trans (le_max_right m (f x)) (foldl_max_init_le f rest _)
    · exact ih _ x h

/-- A max-fold is bounded by any common upper bound. -/
theorem foldl_max_le {α : Type} (f : α → Rat) :
    ∀ (l : List α) (m c : Rat), m ≤ c → (∀ x ∈ l, f x ≤ c) →
      l.foldl (fun a y => max a (f y)) m ≤ c := by
  intro l
  induction l with
  | nil => intro m c hm _; simpa using hm
  | cons y rest ih =>
    intro m c hm hall
    refine ih _ _ (max_le hm (hall y (by simp))) ?_
    intro x hx
    exact hall x (by simp [hx])

/-- On a non-negative accumulator `severityStep` is `max` with the entry's
score (an unrecognized scheme contributes score 0 and leaves the
accumulator unchanged). -/
theorem severityStep_eq_max (env : RenderEnv) (m : Rat) (hm : 0 ≤ m) (s : Severity) :
    severityStep env m s = max m (severityScore env s) := by
  unfold severityStep severityScore
  by_cases h2 : s.type = SeverityCVSSV2
  · rw [if_pos h2, if_pos h2]
  · by_cases h3 : s.type = SeverityCVSSV3
    · rw [if_neg h2, if_pos h3, if_neg h2, if_pos h3]
    · rw [if_neg h2, if_neg h3, if_neg h2, if_neg h3]
      exact (max_eq_left hm).symm

/-- The severity fold agrees with the max-fold from a non-negative
start. -/
theorem foldl_severityStep_eq (env : RenderEnv) :
    ∀ (l : List Severity) (m : Rat), 0 ≤ m →
      l.foldl (severityStep env) m =
        l.foldl (fun a s => max a (severityScore env s)) m := by
  intro l
  induction l with
  | nil => intro m _; rfl
  | cons s rest ih =>
    intro m hm
    rw [List.foldl_cons, List.foldl_cons, severityStep_eq_max env m hm s]
    exact ih _ (le_trans hm (le_max_left ..))

/-- The nested ID/severity folds of `maxSeverityScore` flatten to one
max-fold over all severity entries of the group. -/
theorem idsFold_eq_flat (env : RenderEnv) (sevs : String → List Severity) :
    ∀ (ids : List String) (m : Rat), 0 ≤ m →
      ids.foldl (fun m vulnID => (sevs vulnID).foldl (severityStep env) m) m =
        (ids.flatMap sevs).foldl (fun a s => max a (severityScore env s)) m := by
  intro ids
  induction ids with
  | nil => intro m _; rfl
  | cons i rest ih =>
    intro m hm
    rw [List.foldl_cons, List.flatMap_cons, List.foldl_append,
      foldl_severityStep_eq env _ m hm]
    exact ih _ (le_trans hm (foldl_max_init_le _ _ _))

/-- `maxSeverityScore` as a single max-fold over the group's severity
entries. -/
theorem maxSeverityScore_eq_flat (env : RenderEnv) (group : GroupInfo)
    (pkg : PackageVulns) :
    maxSeverityScore env group pkg =
      (group.ids.flatMap (fun vulnID => severitiesOf vulnID pkg.vulnerabilities)).foldl
        (fun a s => max a (severityScore env s)) 0 :=
  idsFold_eq_flat env (fun vulnID => severitiesOf vulnID pkg.vulnerabilities)
    group.ids 0 le_rfl

/-- The accumulated maximum is never negative. -/
theorem maxSeverityScore_nonneg (env : RenderEnv) (group : GroupInfo)
    (pkg : PackageVulns) : 0 ≤ maxSeverityScore env group pkg := by
  rw [maxSeverityScore_eq_flat]
  exact foldl_max_init_le _ _ 0

/-- A max-fold from 0 is positive exactly when some element is. -/
theorem foldl_max_zero_pos {α : Type} (f : α → Rat) (l : List α) :
    0 < l.foldl (fun a y => max a (f y)) 0 ↔ ∃ x ∈ l, 0 < f x := by
  constructor
  · intro h
    by_contra hno
    push_neg at hno
    exact absurd (lt_of_lt_of_le h (foldl_max_le f l 0 0 le_rfl hno)) (lt_irrefl 0)
  · rintro ⟨x, hx, hfx⟩
    exact lt_of_lt_of_le hfx (foldl_max_mem_le f l 0 x hx)

/-- Claim C1 (amended): `MaxSeverity` renders the empty sentinel exactly
when its accumulated maximum is zero — which covers groups with no usable
score but also any group whose valid vectors all decode to score 0 — and
renders a non-empty string exactly when some severity entry decodes to a
positive score.  A legitimately decoded zero score is thus rendered as the
sentinel, not as a numeric string. -/
theorem maxSeverity_sentinel_characterization :
    ∀ (env : RenderEnv) (group : GroupInfo) (pkg : PackageVulns),
      (∀ q : Rat, env.formatFloat q ≠ "") →
      ((MaxSeverity env group pkg = "" ↔ maxSeverityScore env group pkg = 0) ∧
       (MaxSeverity env group pkg ≠ "" ↔
         ∃ vulnID ∈ group.ids,
           ∃ s ∈ severitiesOf vulnID pkg.vulnerabilities,
             0 < severityScore env s)) := by
  intro env group pkg hfmt
  have hnn : 0 ≤ maxSeverityScore env group pkg :=
    maxSeverityScore_nonneg env group pkg
  have hiff1 : MaxSeverity env group pkg = "" ↔ maxSeverityScore env group pkg = 0 := by
    unfold MaxSeverity
    by_cases h : maxSeverityScore env group pkg = 0
    · simp [h]
    · simp [h, hfmt _]
  refine ⟨hiff1, ?_⟩
  calc MaxSeverity env group pkg ≠ ""
      ↔ ¬ maxSeverityScore env group pkg = 0 := not_congr hiff1
    _ ↔ 0 < maxSeverityScore env group pkg :=
        ⟨fun h => lt_of_le_of_ne hnn (Ne.symm h), fun h => ne_of_gt h⟩
    _ ↔ ∃ s ∈ group.ids.flatMap (fun vulnID => severitiesOf vulnID pkg.vulnerabilities),
          0 < severityScore env s := by
        rw [maxSeverityScore_eq_flat]
        exact foldl_max_zero_pos _ _
    _ ↔ ∃ vulnID ∈ group.ids,
          ∃ s ∈ severitiesOf vulnID pkg.vulnerabilities, 0 < severityScore env s := by
        simp only [List.mem_flatMap]
        constructor
        · rintro ⟨s, ⟨i, hi, hsi⟩, hpos⟩
          exact ⟨i, hi, s, hsi, hpos⟩
        · rintro ⟨i, hi, s, hsi, hpos⟩
          exact ⟨s, ⟨i, hi, hsi⟩, hpos⟩

/-- Witness for the amended C1: on a group whose only vector decodes to
score 5, `MaxSeverity` is non-empty and the characterization holds. -/
theorem maxSeverity_sentinel_characterization_witness :
    (MaxSeverity envTest groupOne pkgV5 = "" ↔
      maxSeverityScore envTest groupOne pkgV5 = 0) ∧
    (MaxSeverity envTest groupOne pkgV5 ≠ "" ↔
      ∃ vulnID ∈ groupOne.ids,
        ∃ s ∈ severitiesOf vulnID pkgV5.vulnerabilities,
          0 < severityScore envTest s) :=
  maxSeverity_sentinel_characterization envTest groupOne pkgV5
    (fun _ => (by decide : ("5" : String) ≠ ""))

/-- Counterexample for C1 as stated: the vector `"Z0"` decodes
successfully (to the legitimate CVSS score 0), the group's severity list
is non-empty, yet `MaxSeverity` renders the empty no-data sentinel rather
than a non-empty numeric string. -/
theorem maxSeverity_c1_counterexample :
    envTest.decodeV3 "Z0" = some 0 ∧
    severitiesOf "OSV-1" pkgZ0.vulnerabilities = [⟨"CVSS_V3", "Z0"⟩] ∧
    MaxSeverity envTest groupOne pkgZ0 = "" := by
  decide

/-- `Flatten`'s vulnerability loop succeeds exactly when every
vulnerability has an owning group. -/
theorem flattenVulns_isSome (source : SourceInfo) (pkgInfo : PackageInfo)
    (groups : List GroupInfo) :
    ∀ vs : List Vulnerability,
      (flattenVulns source pkgInfo groups vs).isSome ↔
        ∀ v ∈ vs, (findGroup groups v.id).isSome := by
  intro vs
  induction vs with
  | nil => simp [flattenVulns]
  | cons v rest ih =>
    simp only [flattenVulns, List.forall_mem_cons]
    cases hg : findGroup groups v.id with
    | none => simp [hg]
    | some g => simp [hg, ih]

/-- Under the per-package precondition the vulnerability loop returns its
rows. -/
theorem flattenVulns_eq_some (source : SourceInfo) (pkgInfo : PackageInfo)
    (groups : List GroupInfo) :
    ∀ vs : List Vulnerability,
      (∀ v ∈ vs, (findGroup groups v.id).isSome) →
      flattenVulns source pkgInfo groups vs =
        some (vs.filterMap (fun v => (findGroup groups v.id).map
          (fun g => ⟨source, pkgInfo, v, g⟩))) := by
  intro vs
  induction vs with
  | nil => intro _; rfl
  | cons v rest ih =>
    intro h
    obtain ⟨g, hg⟩ := Option.isSome_iff_exists.mp (h v (by simp))
    rw [flattenVulns, hg, ih (fun w hw => h w (by simp [hw]))]
    simp [List.filterMap_cons, hg]

/-- The package loop succeeds exactly when every package's vulnerability
loop does. -/
theorem flattenPkgs_isSome (source : SourceInfo) :
    ∀ pkgs : List PackageVulns,
      (flattenPkgs source pkgs).isSome ↔
        ∀ pkg ∈ pkgs,
          (flattenVulns source pkg.package pkg.groups pkg.vulnerabilities).isSome := by
  intro pkgs
  induction pkgs with
  | nil => simp [flattenPkgs]
  | cons p rest ih =>
    simp only [flattenPkgs, List.forall_mem_cons]
    cases hp : flattenVulns source p.package p.groups p.vulnerabilities with
    | none => simp [hp]
    | some a =>
      cases hr : flattenPkgs source rest with
      | none =>
        have hno : ¬ ∀ pkg ∈ rest,
            (flattenVulns source pkg.package pkg.groups pkg.vulnerabilities).isSome := by
          rw [← ih, hr]
          simp
        simp [hp, hr, hno]
      | some b =>
        have hyes : ∀ pkg ∈ rest,
            (flattenVulns source pkg.package pkg.groups pkg.vulnerabilities).isSome := by
          rw [← ih, hr]
          simp
        simp [hp, hr]
        exact hyes

/-- The source loop succeeds exactly when every source's package loop
does. -/
theorem flattenSources_isSome :
    ∀ rs : List PackageSource,
      (flattenSources rs).isSome ↔
        ∀ res ∈ rs, (flattenPkgs res.source res.packages).isSome := by
  intro rs
  induction rs with
  | nil => simp [flattenSources]
  | cons r rest ih =>
    simp only [flattenSources, List.forall_mem_cons]
    cases hp : flattenPkgs r.source r.packages with
    | none => simp [hp]
    | some a =>
      cases hr : flattenSources rest with
      | none =>
        have hno : ¬ ∀ res ∈ rest, (flattenPkgs res.source res.packages).isSome := by
          rw [← ih, hr]
          simp
        simp [hp, hr, hno]
      | some b =>
        have hyes : ∀ res ∈ rest, (flattenPkgs res.source res.packages).isSome := by
          rw [← ih, hr]
          simp
        simp [hp, hr]
        exact hyes

/-- `Flatten` succeeds exactly on well-formed models. -/
theorem flatten_isSome_iff (r : VulnerabilityResults) :
    (Flatten r).isSome ↔ WellFormed r := by
  unfold Flatten WellFormed
  rw [flattenSources_isSome]
  simp only [flattenPkgs_isSome, flattenVulns_isSome, findGroup, List.find?_isSome]

/-- Claim C5: `Flatten` hits its fatal panic branch (modelled as `none`;
the Go signature offers no recoverable error return) exactly when some
package holds a vulnerability whose ID is in none of that package's
groups; on every well-formed model the branch is unreachable. -/
theorem flatten_fatal_iff (r : VulnerabilityResults) :
    Flatten r = none ↔ ¬ WellFormed r := by
  rw [← flatten_isSome_iff]
  cases Flatten r <;> simp

/-- Witness for C5: on a model whose only vulnerability is in no group,
`Flatten` fails fatally. -/
theorem flatten_fatal_iff_witness : Flatten rBad = none :=
  (flatten_fatal_iff rBad).mpr (by unfold WellFormed; decide)

/-- Under the precondition the package loop returns the concatenated
per-package rows. -/
theorem flattenPkgs_eq_some (source : SourceInfo) :
    ∀ pkgs : List PackageVulns,
      (∀ pkg ∈ pkgs, ∀ v ∈ pkg.vulnerabilities, (findGroup pkg.groups v.id).isSome) →
      flattenPkgs source pkgs =
        some (pkgs.flatMap (fun pkg =>
          pkg.vulnerabilities.filterMap (fun v => (findGroup pkg.groups v.id).map
            (fun g => ⟨source, pkg.package, v, g⟩)))) := by
  intro pkgs
  induction pkgs with
  | nil => intro _; rfl
  | cons p rest ih =>
    intro h
    rw [flattenPkgs,
      flattenVulns_eq_some source p.package p.groups p.vulnerabilities (h p (by simp)),
      ih (fun q hq => h q (by simp [hq]))]
    simp [List.flatMap_cons]

/-- Under the precondition the source loop returns all rows in source,
package, vulnerability order. -/
theorem flattenSources_eq_some :
    ∀ rs : List PackageSource,
      (∀ res ∈ rs, ∀ pkg ∈ res.packages, ∀ v ∈ pkg.vulnerabilities,
        (findGroup pkg.groups v.id).isSome) →
      flattenSources rs =
        some (rs.flatMap (fun res =>
          res.packages.flatMap (fun pkg =>
            pkg.vulnerabilities.filterMap (fun v => (findGroup pkg.groups v.id).map
              (fun g => ⟨res.source, pkg.package, v, g⟩))))) := by
  intro rs
  induction rs with
  | nil => intro _; rfl
  | cons r rest ih =>
    intro h
    rw [flattenSources, flattenPkgs_eq_some r.source r.packages (h r (by simp)),
      ih (fun q hq => h q (by simp [hq]))]
    simp [List.flatMap_cons]

/-- A filter-map whose function always hits keeps the length. -/
theorem filterMap_length_of_isSome {α β : Type} (f : α → Option β) :
    ∀ l : List α, (∀ x ∈ l, (f x).isSome) → (l.filterMap f).length = l.length := by
  intro l
  induction l with
  | nil => intro _; rfl
  | cons x rest ih =>
    intro h
    obtain ⟨b, hb⟩ := Option.isSome_iff_exists.mp (h x (by simp))
    rw [List.filterMap_cons, hb]
    simp [ih (fun y hy => h y (by simp [hy]))]

/-- Length of the per-package rows: one row per vulnerability record. -/
theorem flattenSpecPkgs_length (source : SourceInfo) :
    ∀ pkgs : List PackageVulns,
      (∀ pkg ∈ pkgs, ∀ v ∈ pkg.vulnerabilities, (findGroup pkg.groups v.id).isSome) →
      (pkgs.flatMap (fun pkg =>
        pkg.vulnerabilities.filterMap (fun v => (findGroup pkg.groups v.id).map
          (fun g => (⟨source, pkg.package, v, g⟩ : VulnerabilityFlattened))))).length =
      (pkgs.map (fun pkg => pkg.vulnerabilities.length)).sum := by
  intro pkgs
  induction pkgs with
  | nil => intro _; rfl
  | cons p rest ih =>
    intro h
    rw [List.flatMap_cons, List.length_append, List.map_cons, List.sum_cons,
      ih (fun q hq => h q (by simp [hq]))]
    congr 1
    apply filterMap_length_of_isSome
    intro v hv
    simp only [Option.isSome_map']
    exact h p (by simp) v hv

/-- Length of all rows: the total vulnerability-record count. -/
theorem flattenSpecSources_length :
    ∀ rs : List PackageSource,
      (∀ res ∈ rs, ∀ pkg ∈ res.packages, ∀ v ∈ pkg.vulnerabilities,
        (findGroup pkg.groups v.id).isSome) →
      (rs.flatMap (fun res =>
        res.packages.flatMap (fun pkg =>
          pkg.vulnerabilities.filterMap (fun v => (findGroup pkg.groups v.id).map
            (fun g => (⟨res.source, pkg.package, v, g⟩ : VulnerabilityFlattened)))))).length =
      ((rs.flatMap (fun res => res.packages)).map
        (fun pkg => pkg.vulnerabilities.length)).sum := by
  intro rs
  induction rs with
  | nil => intro _; rfl
  | cons r rest ih =>
    intro h
    rw [List.flatMap_cons, List.length_append, List.flatMap_cons, List.map_append,
      List.sum_append, ih (fun q hq => h q (by simp [hq])),
      flattenSpecPkgs_length r.source r.packages (h r (by simp))]

/-- Claim C4: on a well-formed model `Flatten` returns exactly one row
per (source, package, vulnerability) triple — carrying the source, the
package, the vulnerability and the first group containing its ID, in
source, package, vulnerability order — and its length is the total count
of vulnerability records across all packages of all sources. -/
theorem flatten_rows_and_length (r : VulnerabilityResults) (h : WellFormed r) :
    Flatten r = some (flattenSpec r) ∧ (flattenSpec r).length = totalVulns r := by
  have hsome : ∀ res ∈ r.results, ∀ pkg ∈ res.packages, ∀ v ∈ pkg.vulnerabilities,
      (findGroup pkg.groups v.id).isSome := by
    intro res hres pkg hpkg v hv
    obtain ⟨g, hg, hcont⟩ := h res hres pkg hpkg v hv
    unfold findGroup
    rw [List.find?_isSome]
    exact ⟨g, hg, hcont⟩
  constructor
  · unfold Flatten flattenSpec
    exact flattenSources_eq_some r.results hsome
  · unfold flattenSpec totalVulns
    exact flattenSpecSources_length r.results hsome

/-- Witness for C4 on a concrete two-vulnerability model. -/
theorem flatten_rows_and_length_witness :
    Flatten rGood = some (flattenSpec rGood) ∧
    (flattenSpec rGood).length = totalVulns rGood :=
  flatten_rows_and_length rGood (by unfold WellFormed; decide)

/-- Claim C2 (amended): in a 3-query batch with query 2 skipped and query
3 not-found, the workers do fill the slot array as
`[<licenses>, [], ["UNKNOWN"]]`, but the batch call returns the not-found
error with a nil result list — the filled slots are discarded, not
returned alongside the error. -/
theorem makeVersionRequests_notFound {α : Type}
    (getVersion : α → GetVersionResult) (q1 q3 : α) (ls : List String)
    (h1 : getVersion q1 = .ok ls) (hne : ls ≠ []) (h3 : getVersion q3 = .notFound) :
    versionSlots getVersion [some q1, none, some q3] = [ls, [], ["UNKNOWN"]] ∧
    MakeVersionRequests getVersion [some q1, none, some q3] =
      .error .notFound := by
  have hlen : ¬ ls.length = 0 := by simpa using hne
  constructor
  · simp [versionSlots, workerSlot, h1, h3, hlen]
    exact fun h => absurd h hne
  · simp [MakeVersionRequests, firstWorkerError, workerSlot, h1, h3, List.findSome?]

/-- Witness for the amended C2 at a concrete endpoint. -/
theorem makeVersionRequests_notFound_witness :
    versionSlots gvTest [some "q1", none, some "q3"] = [["MIT"], [], ["UNKNOWN"]] ∧
    MakeVersionRequests gvTest [some "q1", none, some "q3"] =
      .error .notFound :=
  makeVersionRequests_notFound gvTest "q1" "q3" ["MIT"]
    (by decide) (by decide) (by decide)

/-- Counterexample for C2 as stated: with query 1 resolving to `["MIT"]`,
query 2 skipped and query 3 not-found, the call returns the not-found
error and not the claimed result list `[["MIT"], [], ["UNKNOWN"]]`. -/
theorem makeVersionRequests_c2_counterexample :
    MakeVersionRequests gvTest [some "q1", none, some "q3"] =
      Except.error DepsDevError.notFound ∧
    MakeVersionRequests gvTest [some "q1", none, some "q3"] ≠
      Except.ok [["MIT"], [], ["UNKNOWN"]] := by
  have heq : MakeVersionRequests gvTest [some "q1", none, some "q3"] =
      Except.error DepsDevError.notFound := rfl
  refine ⟨heq, ?_⟩
  rw [heq]
  intro hcontra
  exact Except.noConfusion hcontra

/-- The group loop of one package accumulates exactly the rows of the
groups whose `IsCalled` matches the pass. -/
theorem groupsFold_eq (env : RenderEnv) (addStyling called : Bool)
    (sourcePath : String) (pkg : PackageVulns) :
    ∀ (gs : List GroupInfo) (acc : List (List String × Bool)),
      gs.foldl (fun allOutputRows group =>
        if IsCalled group ≠ called then allOutputRows
        else allOutputRows ++ [buildGroupRow env addStyling sourcePath pkg group]) acc =
      acc ++ (gs.filter (fun g => IsCalled g = called)).map
        (buildGroupRow env addStyling sourcePath pkg) := by
  intro gs
  induction gs with
  | nil => intro acc; simp
  | cons g rest ih =>
    intro acc
    rw [List.foldl_cons]
    by_cases hg : IsCalled g = called
    · rw [if_neg (not_not_intro hg), ih,
        List.filter_cons_of_pos (by simp [hg]), List.map_cons]
      simp
    · rw [if_pos hg, ih, List.filter_cons_of_neg (by simp [hg])]

/-- The package loop of one source accumulates the filtered rows of all
its packages in order. -/
theorem pkgsFold_eq (env : RenderEnv) (addStyling called : Bool)
    (sourcePath : String) :
    ∀ (pkgs : List PackageVulns) (acc : List (List String × Bool)),
      pkgs.foldl (fun acc pkg =>
        pkg.groups.foldl (fun allOutputRows group =>
          if IsCalled group ≠ called then allOutputRows
          else allOutputRows ++ [buildGroupRow env addStyling sourcePath pkg group]) acc) acc =
      acc ++ pkgs.flatMap (fun pkg =>
        (pkg.groups.filter (fun g => IsCalled g = called)).map
          (buildGroupRow env addStyling sourcePath pkg)) := by
  intro pkgs
  induction pkgs with
  | nil => intro acc; simp
  | cons p rest ih =>
    intro acc
    rw [List.foldl_cons, groupsFold_eq, ih, List.flatMap_cons, List.append_assoc]

/-- The source loop with a general accumulator. -/
theorem sourcesFold_eq (env : RenderEnv) (addStyling called : Bool) :
    ∀ (rs : List PackageSource) (acc : List (List String × Bool)),
      rs.foldl (fun acc sourceRes =>
        sourceRes.packages.foldl (fun acc pkg =>
          pkg.groups.foldl (fun allOutputRows group =>
            if IsCalled group ≠ called then allOutputRows
            else allOutputRows ++
              [buildGroupRow env addStyling
                (env.simplifyPath sourceRes.source.path) pkg group])
            acc) acc) acc =
      acc ++ rs.flatMap (fun res =>
        res.packages.flatMap (fun pkg =>
          (pkg.groups.filter (fun g => IsCalled g = called)).map
            (buildGroupRow env addStyling (env.simplifyPath res.source.path) pkg))) := by
  intro rs
  induction rs with
  | nil => intro acc; simp
  | cons res rest ih =>
    intro acc
    rw [List.foldl_cons, pkgsFold_eq, ih, List.flatMap_cons, List.append_assoc]

/-- `tableBuilderInner` emits exactly the matching groups' rows in source,
package, group order. -/
theorem tableBuilderInner_eq (env : RenderEnv) (r : VulnerabilityResults)
    (addStyling called : Bool) :
    tableBuilderInner env r addStyling called = groupRows env r addStyling called := by
  unfold tableBuilderInner groupRows
  rw [sourcesFold_eq env addStyling called r.results []]
  rfl

/-- Claim C8: the vulnerability table is built in two passes — all rows of
groups with `IsCalled = true` first, then a labelled divider
(`"Uncalled vulnerabilities"` between separators) followed by the rows of
groups with `IsCalled = false` — and when the uncalled pass produces no
rows the divider and separators are omitted entirely, leaving only the
header and the called rows. -/
theorem tableBuilder_two_passes (env : RenderEnv) (r : VulnerabilityResults)
    (addStyling : Bool) :
    tableBuilderInner env r addStyling true = groupRows env r addStyling true ∧
    tableBuilderInner env r addStyling false = groupRows env r addStyling false ∧
    tableBuilder env r addStyling =
      TableEntry.header tableHeader ::
        ((groupRows env r addStyling true).map (fun e => TableEntry.row e.1 e.2) ++
          (if groupRows env r addStyling false = [] then []
           else TableEntry.separator ::
             TableEntry.row ["Uncalled vulnerabilities"] false ::
             TableEntry.separator ::
             (groupRows env r addStyling false).map (fun e => TableEntry.row e.1 e.2))) := by
  refine ⟨tableBuilderInner_eq env r addStyling true,
    tableBuilderInner_eq env r addStyling false, ?_⟩
  unfold tableBuilder
  rw [tableBuilderInner_eq env r addStyling true, tableBuilderInner_eq env r addStyling false]
  by_cases h : groupRows env r addStyling false = []
  · rw [if_pos h]
    rw [if_pos (by rw [h]; rfl : (groupRows env r addStyling false).length = 0)]
    simp
  · rw [if_neg h]
    rw [if_neg (fun hlen => h (List.length_eq_zero.mp hlen))]
    simp

/-- Lexicographic character comparison is asymmetric. -/
theorem strLtb_asymm : ∀ (as bs : List Char), strLtb as bs = true → strLtb bs as = false := by
  intro as
  induction as with
  | nil =>
    intro bs h
    cases bs with
    | nil => simp [strLtb] at h
    | cons b br => rfl
  | cons a ar ih =>
    intro bs h
    cases bs with
    | nil => simp [strLtb] at h
    | cons b br =>
      unfold strLtb at h ⊢
      by_cases h1 : a.toNat < b.toNat
      · rw [if_neg (by omega : ¬ b.toNat < a.toNat), if_pos h1]
      · rw [if_neg h1] at h
        by_cases h2 : b.toNat < a.toNat
        · rw [if_pos h2] at h
          exact absurd h (by simp)
        · rw [if_neg h2] at h
          rw [if_neg h2, if_neg h1]
          exact ih br h

/-- If `x` is lexically before `a` but not before `b`, then `b` is before
`a`. -/
theorem strLtb_resolve : ∀ (xs as bs : List Char),
    strLtb xs as = true → strLtb xs bs = false → strLtb bs as = true := by
  intro xs
  induction xs with
  | nil =>
    intro as bs h1 h2
    cases as with
    | nil => simp [strLtb] at h1
    | cons a ar =>
      cases bs with
      | nil => rfl
      | cons b br => simp [strLtb] at h2
  | cons x xr ih =>
    intro as bs h1 h2
    cases as with
    | nil => simp [strLtb] at h1
    | cons a ar =>
      cases bs with
      | nil => rfl
      | cons b br =>
        unfold strLtb at h1 h2 ⊢
        by_cases hxa : x.toNat < a.toNat
        · by_cases hxb : x.toNat < b.toNat
          · rw [if_pos hxb] at h2
            exact absurd h2 (by simp)
          · rw [if_pos (by omega : b.toNat < a.toNat)]
        · rw [if_neg hxa] at h1
          by_cases hax : a.toNat < x.toNat
          · rw [if_pos hax] at h1
            exact absurd h1 (by simp)
          · rw [if_neg hax] at h1
            by_cases hxb : x.toNat < b.toNat
            · rw [if_pos hxb] at h2
              exact absurd h2 (by simp)
            · rw [if_neg hxb] at h2
              by_cases hbx : b.toNat < x.toNat
              · rw [if_pos (by omega : b.toNat < a.toNat)]
              · rw [if_neg hbx] at h2
                rw [if_neg (by omega : ¬ b.toNat < a.toNat),
                  if_neg (by omega : ¬ a.toNat < b.toNat)]
                exact ih ar br h1 h2

/-- The license comparator is asymmetric. -/
theorem licenseLess_asymm (c : List (String × Nat)) (a b : String) :
    licenseLess c a b = true → licenseLess c b a = false := by
  intro h
  unfold licenseLess at h ⊢
  by_cases ha : a = "UNKNOWN"
  · rw [if_pos ha] at h
    simp at h
  · rw [if_neg ha] at h
    by_cases hb : b = "UNKNOWN"
    · rw [if_pos hb]
    · rw [if_neg hb] at h
      rw [if_neg hb, if_neg ha]
      by_cases hcnt : countOf c a = countOf c b
      · rw [if_pos hcnt] at h
        rw [if_pos hcnt.symm]
        exact strLtb_asymm _ _ h
      · rw [if_neg hcnt] at h
        rw [if_neg (Ne.symm hcnt)]
        simp only [decide_eq_true_eq] at h
        simp only [decide_eq_false_iff_not]
        omega

/-- If the comparator puts `x` strictly before `a`, then for any `b` it
puts `x` before `b` or `b` before `a`. -/
theorem licenseLess_resolve (cnt : List (String × Nat)) (a b x : String) :
    licenseLess cnt x a = true →
    licenseLess cnt x b = true ∨ licenseLess cnt b a = true := by
  intro h
  unfold licenseLess at h ⊢
  by_cases hx : x = "UNKNOWN"
  · rw [if_pos hx] at h
    simp at h
  · rw [if_neg hx] at h
    by_cases hb : b = "UNKNOWN"
    · left
      rw [if_neg hx, if_pos hb]
    · by_cases ha : a = "UNKNOWN"
      · right
        rw [if_neg hb, if_pos ha]
      · rw [if_neg ha] at h
        by_cases h1 : countOf cnt x = countOf cnt a
        · rw [if_pos h1] at h
          by_cases hcb : countOf cnt x = countOf cnt b
          · by_cases hsb : strLt x b = true
            · left
              rw [if_neg hx, if_neg hb, if_pos hcb]
              exact hsb
            · right
              rw [if_neg hb, if_neg ha, if_pos (by omega : countOf cnt b = countOf cnt a)]
              exact strLtb_resolve _ _ _ h (Bool.eq_false_iff.mpr hsb)
          · by_cases hlt : countOf cnt b < countOf cnt x
            · left
              rw [if_neg hx, if_neg hb, if_neg hcb]
              simp [hlt]
            · right
              rw [if_neg hb, if_neg ha,
                if_neg (by omega : ¬ countOf cnt b = countOf cnt a)]
              simp only [decide_eq_true_eq]
              omega
        · rw [if_neg h1] at h
          simp only [decide_eq_true_eq] at h
          by_cases hcb : countOf cnt x = countOf cnt b
          · right
            rw [if_neg hb, if_neg ha,
              if_neg (by omega : ¬ countOf cnt b = countOf cnt a)]
            simp only [decide_eq_true_eq]
            omega
          · by_cases hlt : countOf cnt b < countOf cnt x
            · left
              rw [if_neg hx, if_neg hb, if_neg hcb]
              simp [hlt]
            · right
              rw [if_neg hb, if_neg ha,
                if_neg (by omega : ¬ countOf cnt b = countOf cnt a)]
              simp only [decide_eq_true_eq]
              omega

/-- The induced non-strict order is total. -/
theorem licenseLE_isTotal (counts : List (String × Nat)) :
    IsTotal String (licenseLE counts) := by
  constructor
  intro a b
  cases h : licenseLess counts b a with
  | false => exact Or.inl h
  | true => exact Or.inr (licenseLess_asymm counts b a h)

/-- The induced non-strict order is transitive. -/
theorem licenseLE_isTrans (counts : List (String × Nat)) :
    IsTrans String (licenseLE counts) := by
  constructor
  intro a b c hab hbc
  unfold licenseLE at hab hbc ⊢
  cases h : licenseLess counts c a with
  | false => rfl
  | true =>
    exfalso
    rcases licenseLess_resolve counts a b c h with h' | h'
    · rw [h'] at hbc
      exact Bool.noConfusion hbc
    · rw [h'] at hab
      exact Bool.noConfusion hab

/-- Claim C7: the license summary rows are sorted by the comparator's
order — a permutation of the license keys, descending by count, ties
broken by ascending lexical order, `"UNKNOWN"` always last regardless of
its count — and the counts MIT 5, UNKNOWN 5, Apache-2.0 3 produce the row
order MIT, Apache-2.0, UNKNOWN. -/
theorem licenseSummary_sort_order :
    (∀ counts : List (String × Nat),
        List.Sorted (licenseLE counts) (sortedLicenses counts) ∧
        List.Perm (sortedLicenses counts) (counts.map (fun p => p.1))) ∧
    (∀ (counts : List (String × Nat)) (a : String), licenseLE counts a "UNKNOWN") ∧
    (∀ (counts : List (String × Nat)) (a b : String),
        a ≠ "UNKNOWN" → b ≠ "UNKNOWN" → licenseLE counts a b →
        countOf counts b ≤ countOf counts a) ∧
    (∀ (counts : List (String × Nat)) (a b : String),
        a ≠ "UNKNOWN" → b ≠ "UNKNOWN" → countOf counts a = countOf counts b →
        licenseLE counts a b → strLt b a = false) ∧
    licenseSummaryTableBuilder rLicense =
      [TableEntry.header ["License", "No. of package versions"],
       TableEntry.row ["MIT", "5"] false,
       TableEntry.row ["Apache-2.0", "3"] false,
       TableEntry.row ["UNKNOWN", "5"] false] := by
  refine ⟨fun counts => ⟨?_, ?_⟩, ?_, ?_, ?_, ?_⟩
  · haveI := licenseLE_isTotal counts
    haveI := licenseLE_isTrans counts
    unfold sortedLicenses
    exact List.sorted_insertionSort (licenseLE counts) _
  · unfold sortedLicenses
    exact List.perm_insertionSort (licenseLE counts) _
  · intro counts a
    unfold licenseLE licenseLess
    rw [if_pos rfl]
  · intro counts a b ha hb h
    unfold licenseLE licenseLess at h
    rw [if_neg hb, if_neg ha] at h
    by_cases hcnt : countOf counts b = countOf counts a
    · omega
    · rw [if_neg hcnt] at h
      simp only [decide_eq_false_iff_not] at h
      omega
  · intro counts a b ha hb hcnt h
    unfold licenseLE licenseLess at h
    rw [if_neg hb, if_neg ha, if_pos hcnt.symm] at h
    exact h
  · decide

/-- Witness for C7: concrete instances of the order facts. -/
theorem licenseSummary_sort_order_witness :
    licenseLE [("MIT", 5)] "MIT" "UNKNOWN" ∧
    countOf [("MIT", 5), ("Apache-2.0", 3)] "Apache-2.0" ≤
      countOf [("MIT", 5), ("Apache-2.0", 3)] "MIT" ∧
    strLt "B" "A" = false :=
  ⟨licenseSummary_sort_order.2.1 [("MIT", 5)] "MIT",
   licenseSummary_sort_order.2.2.1 [("MIT", 5), ("Apache-2.0", 3)] "MIT" "Apache-2.0"
     (by decide) (by decide) (by decide),
   licenseSummary_sort_order.2.2.2.1 [("A", 2), ("B", 2)] "A" "B"
     (by decide) (by decide) (by decide) (by decide)⟩
